import Mathlib

/-!
Verification of the retry/resume control loop of `translate.py` (the hadith
translation script).  The external translation service is modelled by scripts
of call outcomes; file system effects are modelled by an explicit store and a
trace of events.  Every definition mirrors a concrete region of the source,
cited by line numbers.
-/

namespace HadithTranslate

/-- The fixed ordered model list (translate.py, `models`, lines 339-348). -/
def models : List String :=
  ["gemini-2.0-flash", "gemini-2.0-flash-lite", "gemini-2.0-flash-exp",
   "gemini-2.0-flash-thinking-exp-01-21", "gemini-1.5-flash", "gemini-1.5-flash-8b",
   "gemini-1.5-flash-8b-exp-0924", "learnlm-1.5-pro-experimental"]

/-- Model rotation state: the `model_index` and `resource_exhausted_count`
locals of `process_book` (translate.py lines 338, 349). -/
structure RotState where
  modelIndex : Nat
  exhaustedCount : Nat
deriving Repr, DecidableEq

/-- The quota-exhaustion update shared by both retry loops (translate.py lines
144-155 and 252-263): increment the counter; once it reaches 4, advance the
model index cyclically over the model list and reset the counter to 0. -/
def quotaStep (s : RotState) : RotState :=
  let c := s.exhaustedCount + 1
  if 4 ≤ c then ⟨(s.modelIndex + 1) % models.length, 0⟩ else ⟨s.modelIndex, c⟩

/-- A translated Hadith payload as returned by the model and persisted
(translate.py, the output schema of `TRANSLATION_PROMPT`, lines 559-567; the
script later overwrites `arabic_text`, line 284). -/
structure TranslatedHadith where
  id : Nat
  hadith_number : Nat
  tajuk_hadith : String
  perawi_melayu : String
  english_text : String
  arabic_text : String
  malay_translation : String
deriving Repr, DecidableEq

/-- Outcome of one `translate_hadith` call as observed by the retry loop of
`process_hadiths` (translate.py lines 49-88, 240-271): a parsed payload, a
`None` return after a JSON decode failure, a raised timeout, a raised
429 RESOURCE_EXHAUSTED error, or any other raised error. -/
inductive CallResult where
  | success (payload : TranslatedHadith)
  | parseFailure
  | timeout
  | quotaExhausted
  | otherError
deriving Repr, DecidableEq

/-- Result of the record-level retry loop: the translated payload if any, the
rotation state on exit, the number of calls issued, and the unconsumed tail of
the outcome script. -/
structure RecordLoopOut where
  result : Option TranslatedHadith
  state : RotState
  calls : Nat
  rest : List CallResult
deriving Repr, DecidableEq

/-- The record-level retry loop of `process_hadiths` (translate.py lines
231-272), driven by a script of call outcomes.  The `attempts` counter is
incremented only when the call returns without raising (success, or a parse
failure returning `None`); a raised timeout, quota exhaustion or other error
runs `continue`, skipping the `attempts += 1` at line 272.  A quota exhaustion
additionally applies `quotaStep` (lines 252-263).  An exhausted script stops
the loop and reports the state reached at that point. -/
def runRecordLoop : List CallResult → Nat → RotState → RecordLoopOut
  | script, attempts, s =>
    if 5 ≤ attempts then ⟨none, s, 0, script⟩
    else
      match script with
      | [] => ⟨none, s, 0, []⟩
      | .success p :: rest => ⟨some p, s, 1, rest⟩
      | .parseFailure :: rest =>
          let r := runRecordLoop rest (attempts + 1) s
          ⟨r.result, r.state, r.calls + 1, r.rest⟩
      | .timeout :: rest =>
          let r := runRecordLoop rest attempts s
          ⟨r.result, r.state, r.calls + 1, r.rest⟩
      | .quotaExhausted :: rest =>
          let r := runRecordLoop rest attempts (quotaStep s)
          ⟨r.result, r.state, r.calls + 1, r.rest⟩
      | .otherError :: rest =>
          let r := runRecordLoop rest attempts s
          ⟨r.result, r.state, r.calls + 1, r.rest⟩

/-- Outcome of one chapter-name call as observed by `translate_chapter_name`
(translate.py lines 131-161). -/
inductive NameCallResult where
  | success (name : String)
  | timeout
  | quotaExhausted
  | otherError
deriving Repr, DecidableEq

/-- Result of the chapter-name retry loop.  Mirroring the Python return type
(translate.py lines 136, 139, 158, 167): only the model index is returned, the
local exhaustion counter is dropped at every return. -/
structure NameLoopOut where
  result : Option String
  modelIndex : Nat
  calls : Nat
  rest : List NameCallResult
deriving Repr, DecidableEq

/-- The retry loop of `translate_chapter_name` (translate.py lines 125-170)
with its default limit of 20 attempts: success returns the name; a timeout or
any non-quota error returns immediately with no result; a quota exhaustion
applies `quotaStep` and increments the attempt counter (line 162). -/
def runChapterNameLoop : List NameCallResult → Nat → RotState → NameLoopOut
  | script, attempts, s =>
    if 20 ≤ attempts then ⟨none, s.modelIndex, 0, script⟩
    else
      match script with
      | [] => ⟨none, s.modelIndex, 0, []⟩
      | .success nm :: rest => ⟨some nm, s.modelIndex, 1, rest⟩
      | .timeout :: rest => ⟨none, s.modelIndex, 1, rest⟩
      | .otherError :: rest => ⟨none, s.modelIndex, 1, rest⟩
      | .quotaExhausted :: rest =>
          let r := runChapterNameLoop rest (attempts + 1) (quotaStep s)
          ⟨r.result, r.modelIndex, r.calls + 1, r.rest⟩

/-- True for the call outcomes that return from `translate_hadith` without
raising, i.e. exactly those after which `process_hadiths` reaches the
`attempts += 1` statement (translate.py line 272). -/
def isCounted : CallResult → Bool
  | .success _ => true
  | .parseFailure => true
  | _ => false

/-- A raw Hadith record as fetched, restricted to the fields the script reads
(translate.py lines 189, 196-197, 223-229, 283). -/
structure HadithRec where
  id : Nat
  chapterId : Nat
  idInBook : Nat
  englishText : String
  arabic : String
  narrator : String
deriving Repr, DecidableEq

/-- A chapter of the fetched book (translate.py lines 376-379). -/
structure Chapter where
  id : Nat
  english : String
  arabic : String
deriving Repr, DecidableEq

/-- The fetched book document, restricted to what `process_book` reads
(translate.py lines 329-333). -/
structure Book where
  id : Nat
  chapters : List Chapter
  hadiths : List HadithRec
deriving Repr, DecidableEq

/-- One entry of the persisted chapter-name index (translate.py lines
398-404). -/
structure ChapterEntry where
  id : Nat
  english : String
  malay : String
deriving Repr, DecidableEq

/-- State of one file on disk: absent, present but holding undecodable JSON,
or present with decoded content. -/
inductive FileState (α : Type) where
  | absent
  | corrupt
  | stored (content : α)
deriving Repr, DecidableEq

/-- The per-book slice of the file system: the chapter-name index file and the
per-chapter files keyed by chapter id. -/
structure FS where
  chapterNames : FileState (List ChapterEntry)
  chapterFiles : List (Nat × FileState (List TranslatedHadith))
deriving Repr, DecidableEq

def lookupFile (files : List (Nat × FileState (List TranslatedHadith))) (cid : Nat) :
    FileState (List TranslatedHadith) :=
  match files with
  | [] => .absent
  | (k, v) :: rest => if k = cid then v else lookupFile rest cid

def setFile (files : List (Nat × FileState (List TranslatedHadith))) (cid : Nat)
    (st : FileState (List TranslatedHadith)) : List (Nat × FileState (List TranslatedHadith)) :=
  match files with
  | [] => [(cid, st)]
  | (k, v) :: rest => if k = cid then (cid, st) :: rest else (k, v) :: setFile rest cid st

/-- Loading the chapter-name index (translate.py lines 354-369): a missing
file and a file with undecodable JSON both yield the empty chapter list. -/
def loadChapterEntries : FileState (List ChapterEntry) → List ChapterEntry
  | .stored l => l
  | _ => []

/-- Loading an existing chapter file (translate.py lines 439-447): undecodable
JSON yields the empty list.  The absent case never reaches this load because
the caller takes the fresh-write branch instead (line 435). -/
def loadExistingHadiths : FileState (List TranslatedHadith) → List TranslatedHadith
  | .stored l => l
  | _ => []

/-- Observable actions of a run: a chapter-name translation submitted for a
chapter, a record translation submitted for a Hadith id, and the two kinds of
file write. -/
inductive Event where
  | translateName (chapterId : Nat)
  | translateHadith (hadithId : Nat)
  | writeChapterNames (content : List ChapterEntry)
  | writeChapterFile (chapterId : Nat) (content : List TranslatedHadith)
deriving Repr, DecidableEq

def isTranslateNameEvent : Event → Bool
  | .translateName _ => true
  | _ => false

def isWriteNamesEvent : Event → Bool
  | .writeChapterNames _ => true
  | _ => false

/-- Result of the per-item loop of `process_hadiths`. -/
structure HadithsOut where
  translated : List TranslatedHadith
  state : RotState
  errors : List Nat
  script : List CallResult
  events : List Event
deriving Repr, DecidableEq

/-- The per-item loop of `process_hadiths` (translate.py lines 195-299): run
the record retry loop for each Hadith; on success reattach the original
Arabic text and append the payload (lines 281-289), otherwise append the
Hadith number (`idInBook`) to the error list (lines 290-298); in either case
the exhaustion counter is reset to 0 (lines 289, 298). -/
def processHadithsAux : List HadithRec → List CallResult → RotState → List Nat → HadithsOut
  | [], script, s, errs => ⟨[], s, errs, script, []⟩
  | h :: hs, script, s, errs =>
    let r := runRecordLoop script 0 s
    match r.result with
    | some p =>
        let o := processHadithsAux hs r.rest ⟨r.state.modelIndex, 0⟩ errs
        ⟨{ p with arabic_text := h.arabic } :: o.translated, o.state, o.errors, o.script,
          Event.translateHadith h.id :: o.events⟩
    | none =>
        let o := processHadithsAux hs r.rest ⟨r.state.modelIndex, 0⟩ (errs ++ [h.idInBook])
        ⟨o.translated, o.state, o.errors, o.script, Event.translateHadith h.id :: o.events⟩

/-- Result of `process_hadiths`. -/
structure ProcessOut where
  result : Option (List TranslatedHadith)
  state : RotState
  errors : List Nat
  script : List CallResult
  events : List Event
deriving Repr, DecidableEq

/-- The function `process_hadiths` (translate.py lines 173-312): filter the
given records by chapter id (line 189), translate each, and return no list at
all when not a single record succeeded (lines 306-311). -/
def process_hadiths (chapterId : Nat) (records : List HadithRec) (script : List CallResult)
    (s : RotState) (errs : List Nat) : ProcessOut :=
  let items := records.filter (fun h => h.chapterId == chapterId)
  let o := processHadithsAux items script s errs
  ⟨if o.translated.isEmpty then none else some o.translated, o.state, o.errors, o.script, o.events⟩

/-- Result of the chapter-name loop of `process_book`. -/
structure NamePhaseOut where
  chapters : List ChapterEntry
  state : RotState
  script : List NameCallResult
  events : List Event
deriving Repr, DecidableEq

/-- The chapter-name loop of `process_book` (translate.py lines 374-412): skip
chapters whose id is in the pre-computed set of already translated ids (lines
372, 382-386); otherwise call `translate_chapter_name`, keep only the model
index it returns — the caller's exhaustion counter is left untouched (lines
389-396) — and append an entry on success.  No file is written inside this
loop. -/
def namePhase (doneIds : List Nat) :
    List Chapter → List ChapterEntry → RotState → List NameCallResult → NamePhaseOut
  | [], acc, s, script => ⟨acc, s, script, []⟩
  | ch :: rest, acc, s, script =>
    if doneIds.contains ch.id then
      namePhase doneIds rest acc s script
    else
      let title := if ch.english ≠ "" then ch.english else ch.arabic
      let r := runChapterNameLoop script 0 s
      let s2 : RotState := ⟨r.modelIndex, s.exhaustedCount⟩
      let acc2 := match r.result with
        | some nm => acc ++ [⟨ch.id, title, nm⟩]
        | none => acc
      let o := namePhase doneIds rest acc2 s2 r.rest
      ⟨o.chapters, o.state, o.script, Event.translateName ch.id :: o.events⟩

/-- The relation used by the merge-case sort (translate.py line 490):
ascending order of the numeric id. -/
def leById (a b : TranslatedHadith) : Prop := a.id ≤ b.id

instance : DecidableRel leById := fun a b => Nat.decLe a.id b.id

instance : IsTotal TranslatedHadith leById := ⟨fun a b => Nat.le_total a.id b.id⟩

instance : IsTrans TranslatedHadith leById := ⟨fun _ _ _ h1 h2 => Nat.le_trans h1 h2⟩

/-- The merge-case sort (translate.py line 490):
`existing_hadiths.sort(key=lambda x: int(x["id"]))`, a stable ascending sort
by numeric id. -/
def sortById (l : List TranslatedHadith) : List TranslatedHadith :=
  List.insertionSort leById l

/-- Result of processing one chapter of the Hadith loop. -/
structure ChapterOut where
  fs : FS
  state : RotState
  script : List CallResult
  errors : List Nat
  events : List Event
deriving Repr, DecidableEq

/-- One iteration of the per-chapter Hadith loop of `process_book`
(translate.py lines 428-533).  If the chapter file does not exist, translate
the full membership and write the resulting list as produced — with no sort —
when at least one record succeeded (lines 507-533).  If the file exists, load
it (undecodable JSON counting as empty, lines 439-447), translate exactly the
records whose id is absent from it (lines 449-479), and on success write the
merged list sorted ascending by numeric id (lines 481-495); with no missing
records, nothing is translated and nothing is written (lines 500-505). -/
def processChapter (allHadiths : List HadithRec) (ch : Chapter) (fs : FS) (s : RotState)
    (script : List CallResult) (errs : List Nat) : ChapterOut :=
  match lookupFile fs.chapterFiles ch.id with
  | .absent =>
      let o := process_hadiths ch.id allHadiths script s errs
      match o.result with
      | some l =>
          ⟨{ fs with chapterFiles := setFile fs.chapterFiles ch.id (.stored l) }, o.state,
            o.script, o.errors, o.events ++ [Event.writeChapterFile ch.id l]⟩
      | none => ⟨fs, o.state, o.script, o.errors, o.events⟩
  | fstate =>
      let existing := loadExistingHadiths fstate
      let existingIds := existing.map (fun t => t.id)
      let chapterHadiths := allHadiths.filter (fun h => h.chapterId == ch.id)
      let missing := chapterHadiths.filter (fun h => !existingIds.contains h.id)
      if missing.isEmpty then ⟨fs, s, script, errs, []⟩
      else
        let o := process_hadiths ch.id missing script s errs
        match o.result with
        | some l =>
            let merged := sortById (existing ++ l)
            ⟨{ fs with chapterFiles := setFile fs.chapterFiles ch.id (.stored merged) }, o.state,
              o.script, o.errors, o.events ++ [Event.writeChapterFile ch.id merged]⟩
        | none => ⟨fs, o.state, o.script, o.errors, o.events⟩

/-- Result of the whole Hadith loop over the book's chapters. -/
structure PhaseOut where
  fs : FS
  state : RotState
  script : List CallResult
  errors : List Nat
  events : List Event
deriving Repr, DecidableEq

/-- The per-chapter Hadith loop of `process_book` (translate.py lines
428-533), iterating `processChapter` over the book's chapters. -/
def hadithPhase (allHadiths : List HadithRec) :
    List Chapter → FS → RotState → List CallResult → List Nat → PhaseOut
  | [], fs, s, script, errs => ⟨fs, s, script, errs, []⟩
  | ch :: rest, fs, s, script, errs =>
    let o := processChapter allHadiths ch fs s script errs
    let o2 := hadithPhase allHadiths rest o.fs o.state o.script o.errors
    ⟨o2.fs, o2.state, o2.script, o2.errors, o.events ++ o2.events⟩

/-- Result of `process_book`. -/
structure BookOut where
  fs : FS
  state : RotState
  errors : List Nat
  events : List Event
deriving Repr, DecidableEq

/-- The body of `process_book` from a given initial rotation state; the real
function fixes that state to model index 0 and count 0 (translate.py lines
338, 349).  It loads the chapter-name index (lines 354-372), runs the
chapter-name loop, writes the whole index file exactly once after that loop
(lines 414-425), then runs the per-chapter Hadith loop (lines 428-533). -/
def processBookFrom (s0 : RotState) (book : Book) (fs : FS) (nameScript : List NameCallResult)
    (recScript : List CallResult) (errs : List Nat) : BookOut :=
  let loaded := loadChapterEntries fs.chapterNames
  let doneIds := loaded.map (fun c => c.id)
  let n := namePhase doneIds book.chapters loaded s0 nameScript
  let fs1 : FS := { fs with chapterNames := .stored n.chapters }
  let p := hadithPhase book.hadiths book.chapters fs1 n.state recScript errs
  ⟨p.fs, p.state, p.errors, n.events ++ Event.writeChapterNames n.chapters :: p.events⟩

/-- The function `process_book` (translate.py lines 315-533): the rotation
state is re-initialized to model index 0 and exhaustion count 0 inside the
function, for every book (lines 337-349). -/
def process_book (book : Book) (fs : FS) (nameScript : List NameCallResult)
    (recScript : List CallResult) (errs : List Nat) : BookOut :=
  processBookFrom ⟨0, 0⟩ book fs nameScript recScript errs

/-- The inputs of one book's processing within a run: its fetched document,
its slice of the file system, and the outcome scripts for its calls. -/
structure BookRun where
  book : Book
  fs : FS
  nameScript : List NameCallResult
  recScript : List CallResult
deriving Repr, DecidableEq

/-- Result of a whole run. -/
structure RunOut where
  outputs : List (FS × RotState × List Event)
  errors : List Nat
deriving Repr, DecidableEq

/-- The main loop over `BOOKS` (translate.py lines 617-628): the error list is
threaded from book to book; the rotation state is not — each `process_book`
call re-initializes it internally. -/
def processBooks : List BookRun → List Nat → RunOut
  | [], errs => ⟨[], errs⟩
  | r :: rest, errs =>
    let b := process_book r.book r.fs r.nameScript r.recScript errs
    let o := processBooks rest b.errors
    ⟨(b.fs, b.state, b.events) :: o.outputs, o.errors⟩

/-- Modelled from the spec (section 3, "Model Rotation State: current model
index into a fixed ordered list, and a consecutive-quota-exhaustion counter,
carried across chapters and books within one run"): identical per-call
semantics to `processBooks`, except that the rotation state reached at the end
of each book's processing is passed into the next book's processing instead of
being re-initialized.  Used to compare the code against claim C5. -/
def processBooksCarried : List BookRun → List Nat → RotState → RunOut
  | [], errs, _ => ⟨[], errs⟩
  | r :: rest, errs, s =>
    let b := processBookFrom s r.book r.fs r.nameScript r.recScript errs
    let o := processBooksCarried rest b.errors b.state
    ⟨(b.fs, b.state, b.events) :: o.outputs, o.errors⟩

/-- The interrupt handlers (translate.py `signal_handler` lines 14-23 and the
`KeyboardInterrupt` handler lines 663-672): when the accumulated error list is
non-empty, write it to `error_hadiths.json`; otherwise write nothing.  The
argument `file` is the content of `error_hadiths.json` before the interrupt
(`none` when the file is absent); the value returned is its content after the
handler ran. -/
def signalHandlerWrite (errs : List Nat) (file : Option (List Nat)) : Option (List Nat) :=
  if errs.isEmpty then file else some errs

/-- Completeness of one chapter's persisted file: the chapter file exists with
decodable content covering the id of every Hadith of the chapter's membership
(the hypothesis of the idempotence claim C7). -/
def chapterCompleteB (fs : FS) (hadiths : List HadithRec) (ch : Chapter) : Bool :=
  match lookupFile fs.chapterFiles ch.id with
  | .stored ex => hadiths.all (fun h => h.chapterId != ch.id || (ex.map (fun t => t.id)).contains h.id)
  | _ => false

/-- A concrete book run used to exhibit the rotation state not being carried
across books: its single record receives four quota-exhaustion failures, which
rotates the model index once. -/
def sampleRun : BookRun :=
  ⟨⟨1, [⟨1, "a", ""⟩], [⟨1, 1, 1, "e", "ar", "n"⟩]⟩, ⟨.stored [⟨1, "a", "x"⟩], []⟩, [],
    [.quotaExhausted, .quotaExhausted, .quotaExhausted, .quotaExhausted]⟩

theorem runRecordLoop_stop (script : List CallResult) (attempts : Nat) (s : RotState)
    (h : 5 ≤ attempts) : runRecordLoop script attempts s = ⟨none, s, 0, script⟩ := by
  cases script with
  | nil => rw [runRecordLoop]; simp [h]
  | cons r rest => cases r <;> (rw [runRecordLoop]; simp [h])

theorem runChapterNameLoop_stop (script : List NameCallResult) (attempts : Nat) (s : RotState)
    (h : 20 ≤ attempts) : runChapterNameLoop script attempts s = ⟨none, s.modelIndex, 0, script⟩ := by
  cases script with
  | nil => rw [runChapterNameLoop]; simp [h]
  | cons r rest => cases r <;> (rw [runChapterNameLoop]; simp [h])

theorem runRecordLoop_counted_le (script : List CallResult) :
    ∀ (attempts : Nat) (s : RotState), attempts ≤ 5 →
      attempts + (script.take (runRecordLoop script attempts s).calls).countP isCounted ≤ 5 := by
  induction script with
  | nil =>
      intro attempts s h
      rw [runRecordLoop]
      split <;> simpa
  | cons r rest ih =>
      intro attempts s h
      by_cases h5 : 5 ≤ attempts
      · rw [runRecordLoop_stop _ _ _ h5]
        simpa using h
      · cases r with
        | success p =>
            rw [runRecordLoop, if_neg h5]
            simp [isCounted]
            omega
        | parseFailure =>
            rw [runRecordLoop, if_neg h5]
            have := ih (attempts + 1) s (by omega)
            simp [List.take_succ_cons, List.countP_cons, isCounted] at this ⊢
            omega
        | timeout =>
            rw [runRecordLoop, if_neg h5]
            have := ih attempts s h
            simp [List.take_succ_cons, List.countP_cons, isCounted] at this ⊢
            omega
        | quotaExhausted =>
            rw [runRecordLoop, if_neg h5]
            have := ih attempts (quotaStep s) h
            simp [List.take_succ_cons, List.countP_cons, isCounted] at this ⊢
            omega
        | otherError =>
            rw [runRecordLoop, if_neg h5]
            have := ih attempts s h
            simp [List.take_succ_cons, List.countP_cons, isCounted] at this ⊢
            omega

theorem runChapterNameLoop_calls_le (script : List NameCallResult) :
    ∀ (attempts : Nat) (s : RotState),
      (runChapterNameLoop script attempts s).calls ≤ 20 - attempts := by
  induction script with
  | nil =>
      intro attempts s
      rw [runChapterNameLoop]
      split <;> simp
  | cons r rest ih =>
      intro attempts s
      by_cases h20 : 20 ≤ attempts
      · rw [runChapterNameLoop_stop _ _ _ h20]
        simp
      · cases r with
        | success nm => rw [runChapterNameLoop, if_neg h20]; simp; omega
        | timeout => rw [runChapterNameLoop, if_neg h20]; simp; omega
        | otherError => rw [runChapterNameLoop, if_neg h20]; simp; omega
        | quotaExhausted =>
            rw [runChapterNameLoop, if_neg h20]
            have := ih (attempts + 1) (quotaStep s)
            simp at *
            omega

theorem processHadithsAux_events (items : List HadithRec) :
    ∀ (script : List CallResult) (s : RotState) (errs : List Nat),
      (processHadithsAux items script s errs).events =
        items.map (fun h => Event.translateHadith h.id) := by
  induction items with
  | nil => intro script s errs; rfl
  | cons h hs ih =>
      intro script s errs
      rw [processHadithsAux]
      cases hr : (runRecordLoop script 0 s).result <;> simp [hr, ih]

theorem process_hadiths_events (cid : Nat) (records : List HadithRec) (script : List CallResult)
    (s : RotState) (errs : List Nat) :
    (process_hadiths cid records script s errs).events =
      (records.filter (fun h => h.chapterId == cid)).map (fun h => Event.translateHadith h.id) := by
  simp [process_hadiths, processHadithsAux_events]

/-- C4: for a chapter whose resume file already exists with content `ex`, the
Hadith records submitted for translation are exactly those records of the
chapter's membership whose id is absent from the persisted content; an id
already present in `ex` is never submitted again. -/
theorem c4_resume_submits_exactly_missing (names : FileState (List ChapterEntry)) (ch : Chapter)
    (allH : List HadithRec) (ex : List TranslatedHadith) (s : RotState)
    (script : List CallResult) (errs : List Nat) (i : Nat) :
    (Event.translateHadith i ∈
        (processChapter allH ch ⟨names, [(ch.id, .stored ex)]⟩ s script errs).events) ↔
      ∃ h, h ∈ allH ∧ h.chapterId = ch.id ∧ h.id = i ∧ i ∉ ex.map (fun t => t.id) := by
  have hlk : lookupFile [(ch.id, FileState.stored ex)] ch.id = .stored ex := by
    simp [lookupFile]
  rw [processChapter]
  simp only [hlk]
  simp only [loadExistingHadiths]
  split
  · rename_i hemp
    simp only [List.isEmpty_iff] at hemp
    simp only [List.not_mem_nil]
    constructor
    · intro hfalse
      simp at hfalse
    · rintro ⟨h, hh, hcid, hid, hnin⟩
      have hmem : h ∈ (allH.filter (fun h => h.chapterId == ch.id)).filter
          (fun h => !(ex.map (fun t => t.id)).contains h.id) := by
        simp [List.mem_filter, hh, hcid, hid]
        simpa using hnin
      rw [hemp] at hmem
      simp at hmem
  · rename_i hne
    cases hres : (process_hadiths ch.id ((allH.filter (fun h => h.chapterId == ch.id)).filter
        (fun h => !(ex.map (fun t => t.id)).contains h.id)) script s errs).result with
    | some l =>
        simp only [hres, process_hadiths_events, List.mem_append, List.mem_singleton,
          List.mem_map, List.mem_filter]
        constructor
        · rintro (⟨h, ⟨⟨⟨hh, hcid⟩, hnin⟩, _⟩, hid⟩ | habs)
          · refine ⟨h, hh, by simpa using hcid, by simpa using hid, ?_⟩
            simp at hnin
            simpa [← (by simpa using hid : h.id = i)] using hnin
          · cases habs
        · rintro ⟨h, hh, hcid, hid, hnin⟩
          refine Or.inl ⟨h, ⟨⟨⟨hh, by simpa using hcid⟩, ?_⟩, by simpa using hcid⟩, by simp [hid]⟩
          simpa [hid] using hnin
    | none =>
        simp only [hres, process_hadiths_events, List.mem_map, List.mem_filter]
        constructor
        · rintro ⟨h, ⟨⟨⟨hh, hcid⟩, hnin⟩, _⟩, hid⟩
          refine ⟨h, hh, by simpa using hcid, by simpa using hid, ?_⟩
          simp at hnin
          simpa [← (by simpa using hid : h.id = i)] using hnin
        · rintro ⟨h, hh, hcid, hid, hnin⟩
          refine ⟨h, ⟨⟨⟨hh, by simpa using hcid⟩, ?_⟩, by simpa using hcid⟩, by simp [hid]⟩
          simpa [hid] using hnin

theorem processChapter_events_cases (allH : List HadithRec) (ch : Chapter) (fs : FS)
    (s : RotState) (script : List CallResult) (errs : List Nat) :
    ∀ e ∈ (processChapter allH ch fs s script errs).events,
      isWriteNamesEvent e = false ∧ isTranslateNameEvent e = false := by
  intro e he
  rw [processChapter] at he
  cases hlk : lookupFile fs.chapterFiles ch.id with
  | absent =>
      simp only [hlk] at he
      split at he
      · simp only [process_hadiths_events, List.mem_append, List.mem_singleton,
          List.mem_map] at he
        rcases he with ⟨h, _, rfl⟩ | rfl <;> simp [isWriteNamesEvent, isTranslateNameEvent]
      · simp only [process_hadiths_events, List.mem_map] at he
        rcases he with ⟨h, _, rfl⟩
        simp [isWriteNamesEvent, isTranslateNameEvent]
  | corrupt =>
      simp only [hlk] at he
      split at he
      · simp at he
      · split at he
        · simp only [process_hadiths_events, List.mem_append, List.mem_singleton,
            List.mem_map] at he
          rcases he with ⟨h, _, rfl⟩ | rfl <;> simp [isWriteNamesEvent, isTranslateNameEvent]
        · simp only [process_hadiths_events, List.mem_map] at he
          rcases he with ⟨h, _, rfl⟩
          simp [isWriteNamesEvent, isTranslateNameEvent]
  | stored ex =>
      simp only [hlk] at he
      split at he
      · simp at he
      · split at he
        · simp only [process_hadiths_events, List.mem_append, List.mem_singleton,
            List.mem_map] at he
          rcases he with ⟨h, _, rfl⟩ | rfl <;> simp [isWriteNamesEvent, isTranslateNameEvent]
        · simp only [process_hadiths_events, List.mem_map] at he
          rcases he with ⟨h, _, rfl⟩
          simp [isWriteNamesEvent, isTranslateNameEvent]

theorem hadithPhase_events_cases (allH : List HadithRec) (chs : List Chapter) :
    ∀ (fs : FS) (s : RotState) (script : List CallResult) (errs : List Nat),
      ∀ e ∈ (hadithPhase allH chs fs s script errs).events,
        isWriteNamesEvent e = false ∧ isTranslateNameEvent e = false := by
  induction chs with
  | nil => intro fs s script errs e he; simp [hadithPhase] at he
  | cons ch rest ih =>
      intro fs s script errs e he
      rw [hadithPhase] at he
      simp only [List.mem_append] at he
      rcases he with h1 | h2
      · exact processChapter_events_cases allH ch fs s script errs e h1
      · exact ih _ _ _ _ e h2

theorem processChapter_chapterNames (allH : List HadithRec) (ch : Chapter) (fs : FS)
    (s : RotState) (script : List CallResult) (errs : List Nat) :
    (processChapter allH ch fs s script errs).fs.chapterNames = fs.chapterNames := by
  rw [processChapter]
  split
  · dsimp only
    split <;> rfl
  all_goals
    dsimp only
    split
    · rfl
    · split <;> rfl

theorem hadithPhase_chapterNames (allH : List HadithRec) (chs : List Chapter) :
    ∀ (fs : FS) (s : RotState) (script : List CallResult) (errs : List Nat),
      (hadithPhase allH chs fs s script errs).fs.chapterNames = fs.chapterNames := by
  induction chs with
  | nil => intro fs s script errs; rfl
  | cons ch rest ih =>
      intro fs s script errs
      rw [hadithPhase]
      rw [ih]
      exact processChapter_chapterNames allH ch fs s script errs

theorem namePhase_events_names (doneIds : List Nat) (chs : List Chapter) :
    ∀ (acc : List ChapterEntry) (s : RotState) (script : List NameCallResult),
      ∀ e ∈ (namePhase doneIds chs acc s script).events, isTranslateNameEvent e = true := by
  induction chs with
  | nil => intro acc s script e he; simp [namePhase] at he
  | cons ch rest ih =>
      intro acc s script e he
      rw [namePhase] at he
      split at he
      · exact ih acc s script e he
      · simp only [List.mem_cons] at he
        rcases he with rfl | he2
        · simp [isTranslateNameEvent]
        · exact ih _ _ _ e he2

theorem namePhase_count (doneIds : List Nat) (chs : List Chapter) :
    ∀ (acc : List ChapterEntry) (s : RotState) (script : List NameCallResult),
      (namePhase doneIds chs acc s script).state.exhaustedCount = s.exhaustedCount := by
  induction chs with
  | nil => intro acc s script; rfl
  | cons ch rest ih =>
      intro acc s script
      rw [namePhase]
      split
      · exact ih acc s script
      · exact ih _ _ _

theorem namePhase_skip_all (doneIds : List Nat) (chs : List Chapter)
    (h : ∀ ch ∈ chs, doneIds.contains ch.id = true) :
    ∀ (acc : List ChapterEntry) (s : RotState) (script : List NameCallResult),
      namePhase doneIds chs acc s script = ⟨acc, s, script, []⟩ := by
  induction chs with
  | nil => intro acc s script; rfl
  | cons ch rest ih =>
      intro acc s script
      rw [namePhase]
      rw [if_pos (h ch (List.mem_cons_self ch rest))]
      exact ih (fun c hc => h c (List.mem_cons_of_mem _ hc)) acc s script

theorem namePhase_all_submitted (chs : List Chapter) :
    ∀ (acc : List ChapterEntry) (s : RotState) (script : List NameCallResult),
      ∀ ch ∈ chs, Event.translateName ch.id ∈ (namePhase [] chs acc s script).events := by
  induction chs with
  | nil => intro acc s script ch hch; simp at hch
  | cons c rest ih =>
      intro acc s script ch hch
      rw [namePhase]
      simp only [List.contains_nil, if_false, Bool.false_eq_true]
      rcases List.mem_cons.mp hch with rfl | hch2
      · exact List.mem_cons_self _ _
      · exact List.mem_cons_of_mem _ (ih _ _ _ ch hch2)

/-- C6 (amended): on a successful chapter-name translation the chapter is
appended to the in-memory resume list, but the chapter index file is persisted
exactly once, after the whole chapter-name loop has finished: the run's trace
is some name-translation events, then the single index write carrying the
final list (which the result file system stores), then Hadith-phase events
containing no further index write and no name translation. -/
theorem c6_index_written_once_after_names (book : Book) (fs : FS)
    (ns : List NameCallResult) (rs : List CallResult) (errs : List Nat) :
    ∃ A B c, (process_book book fs ns rs errs).events = A ++ Event.writeChapterNames c :: B ∧
      (∀ e ∈ A, isTranslateNameEvent e = true) ∧
      (∀ e ∈ B, isWriteNamesEvent e = false ∧ isTranslateNameEvent e = false) ∧
      (process_book book fs ns rs errs).fs.chapterNames = .stored c := by
  refine ⟨_, _, _, rfl, ?_, ?_, ?_⟩
  · intro e he
    exact namePhase_events_names _ _ _ _ _ e he
  · intro e he
    exact hadithPhase_events_cases _ _ _ _ _ _ e he
  · simp only [process_book, processBookFrom]
    rw [hadithPhase_chapterNames]

/-- C6 is false as stated: with two untranslated chapters whose names both
translate successfully, the trace is the two name translations followed by a
single index write — no persist happens between the first chapter's success
and the second chapter's translation. -/
theorem c6_counterexample :
    (process_book ⟨1, [⟨1, "a", ""⟩, ⟨2, "b", ""⟩], []⟩ ⟨.absent, []⟩
        [.success "x", .success "y"] [] []).events =
      [Event.translateName 1, Event.translateName 2,
        Event.writeChapterNames [⟨1, "a", "x"⟩, ⟨2, "b", "y"⟩]] ∧
    (∀ e ∈ [Event.translateName 1, Event.translateName 2], isWriteNamesEvent e = false) := by
  decide

theorem hadithPhase_complete (allH : List HadithRec) (chs : List Chapter) :
    ∀ (fs : FS) (s : RotState) (script : List CallResult) (errs : List Nat),
      (∀ ch ∈ chs, chapterCompleteB fs allH ch = true) →
      hadithPhase allH chs fs s script errs = ⟨fs, s, script, errs, []⟩ := by
  induction chs with
  | nil => intro fs s script errs _; rfl
  | cons ch rest ih =>
      intro fs s script errs hcomp
      have hch := hcomp ch (List.mem_cons_self ch rest)
      have hpc : processChapter allH ch fs s script errs = ⟨fs, s, script, errs, []⟩ := by
        rw [processChapter]
        unfold chapterCompleteB at hch
        cases hlk : lookupFile fs.chapterFiles ch.id with
        | absent => rw [hlk] at hch; simp at hch
        | corrupt => rw [hlk] at hch; simp at hch
        | stored ex =>
            rw [hlk] at hch
            simp only [hlk]
            have hmiss : (allH.filter (fun h => h.chapterId == ch.id)).filter
                (fun h => !(ex.map (fun t => t.id)).contains h.id) = [] := by
              rw [List.filter_eq_nil_iff]
              intro h hm
              simp only [List.mem_filter] at hm
              simp only [List.all_eq_true] at hch
              rcases hm with ⟨hh, hcid⟩
              rcases Bool.or_eq_true_iff.mp (hch h hh) with hne | hcont
              · exact absurd hcid (by simpa using hne)
              · simpa using hcont
            simp only [loadExistingHadiths]
            rw [hmiss]
            simp
      rw [hadithPhase, hpc]
      have hrest := ih fs s script errs (fun c hc => hcomp c (List.mem_cons_of_mem _ hc))
      simp [hrest]

/-- C7: re-running the book processing loop against a book whose chapter index
already lists every chapter and whose chapter files each cover their full
membership performs zero translation calls — the trace is exactly the one
rewrite of the chapter index, with content identical to what was loaded — and
leaves every file's content unchanged. -/
theorem c7_rerun_idempotent (book : Book) (fsn : FileState (List ChapterEntry))
    (fsf : List (Nat × FileState (List TranslatedHadith))) (l : List ChapterEntry)
    (ns : List NameCallResult) (rs : List CallResult) (errs : List Nat)
    (h1 : fsn = .stored l)
    (h2 : ∀ ch ∈ book.chapters, ch.id ∈ l.map (fun c => c.id))
    (h3 : ∀ ch ∈ book.chapters, chapterCompleteB ⟨fsn, fsf⟩ book.hadiths ch = true) :
    (process_book book ⟨fsn, fsf⟩ ns rs errs).fs = ⟨fsn, fsf⟩ ∧
    (process_book book ⟨fsn, fsf⟩ ns rs errs).errors = errs ∧
    (process_book book ⟨fsn, fsf⟩ ns rs errs).events = [Event.writeChapterNames l] := by
  subst h1
  have hskip : namePhase (l.map (fun c => c.id)) book.chapters l ⟨0, 0⟩ ns =
      ⟨l, ⟨0, 0⟩, ns, []⟩ := by
    refine namePhase_skip_all _ _ (fun ch hch => ?_) _ _ _
    have := h2 ch hch
    exact List.elem_eq_true_of_mem this
  simp only [process_book, processBookFrom, loadChapterEntries]
  rw [hskip]
  rw [hadithPhase_complete book.hadiths book.chapters _ _ _ _ h3]
  simp

theorem c7_rerun_idempotent_witness :
    (process_book ⟨1, [⟨1, "a", ""⟩], [⟨1, 1, 1, "e", "ar", "n"⟩]⟩
        ⟨.stored [⟨1, "a", "x"⟩], [(1, .stored [⟨1, 1, "t", "p", "e", "ar", "m"⟩])]⟩
        [] [] []).fs =
      ⟨.stored [⟨1, "a", "x"⟩], [(1, .stored [⟨1, 1, "t", "p", "e", "ar", "m"⟩])]⟩ ∧
    (process_book ⟨1, [⟨1, "a", ""⟩], [⟨1, 1, 1, "e", "ar", "n"⟩]⟩
        ⟨.stored [⟨1, "a", "x"⟩], [(1, .stored [⟨1, 1, "t", "p", "e", "ar", "m"⟩])]⟩
        [] [] []).events = [Event.writeChapterNames [⟨1, "a", "x"⟩]] := by
  have h := c7_rerun_idempotent ⟨1, [⟨1, "a", ""⟩], [⟨1, 1, 1, "e", "ar", "n"⟩]⟩
    (.stored [⟨1, "a", "x"⟩]) [(1, .stored [⟨1, 1, "t", "p", "e", "ar", "m"⟩])]
    [⟨1, "a", "x"⟩] [] [] [] rfl (by decide) (by decide)
  exact ⟨h.1, h.2.2⟩

/-- C10: a resume file holding undecodable JSON is treated as the empty list —
loading does not abort — and everything it would have covered is submitted
again: with a corrupt chapter-name index every chapter's name is translated
again, and with a corrupt chapter file every Hadith of the chapter's
membership is submitted for translation again. -/
theorem c10_corrupt_resume_retranslates :
    loadChapterEntries FileState.corrupt = [] ∧
    loadExistingHadiths FileState.corrupt = [] ∧
    (∀ (book : Book) (fs : FS) (ns : List NameCallResult) (rs : List CallResult)
        (errs : List Nat), fs.chapterNames = FileState.corrupt →
      ∀ ch ∈ book.chapters,
        Event.translateName ch.id ∈ (process_book book fs ns rs errs).events) ∧
    (∀ (names : FileState (List ChapterEntry)) (ch : Chapter) (allH : List HadithRec)
        (s : RotState) (script : List CallResult) (errs : List Nat) (h : HadithRec),
      h ∈ allH → h.chapterId = ch.id →
        Event.translateHadith h.id ∈
          (processChapter allH ch ⟨names, [(ch.id, FileState.corrupt)]⟩ s script errs).events) := by
  refine ⟨rfl, rfl, ?_, ?_⟩
  · intro book fs ns rs errs hc ch hch
    simp only [process_book, processBookFrom, hc, loadChapterEntries, List.map_nil]
    exact List.mem_append_left _ (namePhase_all_submitted book.chapters _ _ _ ch hch)
  · intro names ch allH s script errs h hh hcid
    have hlk : lookupFile [(ch.id, FileState.corrupt)] ch.id = .corrupt := by
      simp [lookupFile]
    rw [processChapter]
    simp only [hlk, loadExistingHadiths]
    have hmem : h ∈ (allH.filter (fun x => x.chapterId == ch.id)).filter
        (fun x => !(([] : List TranslatedHadith).map (fun t => t.id)).contains x.id) := by
      simp [List.mem_filter, hh, hcid]
    split
    · rename_i hemp
      simp only [List.isEmpty_iff] at hemp
      rw [hemp] at hmem
      simp at hmem
    · split
      · refine List.mem_append_left _ ?_
        rw [process_hadiths_events]
        simp only [List.mem_map]
        exact ⟨h, List.mem_filter.mpr ⟨hmem, by simp [hcid]⟩, rfl⟩
      · rw [process_hadiths_events]
        simp only [List.mem_map]
        exact ⟨h, List.mem_filter.mpr ⟨hmem, by simp [hcid]⟩, rfl⟩

theorem c10_corrupt_resume_witness :
    Event.translateName 1 ∈
      (process_book ⟨1, [⟨1, "a", ""⟩], []⟩ ⟨.corrupt, []⟩ [] [] []).events ∧
    Event.translateHadith 5 ∈
      (processChapter [⟨5, 1, 2, "e", "ar", "n"⟩] ⟨1, "a", ""⟩ ⟨.absent, [(1, .corrupt)]⟩
        ⟨0, 0⟩ [] []).events := by
  constructor
  · exact c10_corrupt_resume_retranslates.2.2.1 ⟨1, [⟨1, "a", ""⟩], []⟩ ⟨.corrupt, []⟩ [] [] []
      rfl ⟨1, "a", ""⟩ (by decide)
  · exact c10_corrupt_resume_retranslates.2.2.2 .absent ⟨1, "a", ""⟩ [⟨5, 1, 2, "e", "ar", "n"⟩]
      ⟨0, 0⟩ [] [] ⟨5, 1, 2, "e", "ar", "n"⟩ (by decide) rfl

theorem processHadithsAux_errs_shift (items : List HadithRec) :
    ∀ (script : List CallResult) (s : RotState) (errs : List Nat),
      processHadithsAux items script s errs =
        { processHadithsAux items script s [] with
          errors := errs ++ (processHadithsAux items script s []).errors } := by
  induction items with
  | nil => intro script s errs; simp [processHadithsAux]
  | cons h hs ih =>
      intro script s errs
      rw [processHadithsAux, processHadithsAux]
      cases hr : (runRecordLoop script 0 s).result with
      | some p =>
          simp only [hr]
          rw [ih _ _ errs, ih _ _ ([] : List Nat)]
      | none =>
          simp only [hr]
          rw [ih _ _ (errs ++ [h.idInBook]), ih _ _ ([] ++ [h.idInBook])]
          simp

theorem process_hadiths_errs_shift (cid : Nat) (records : List HadithRec)
    (script : List CallResult) (s : RotState) (errs : List Nat) :
    process_hadiths cid records script s errs =
      { process_hadiths cid records script s [] with
        errors := errs ++ (process_hadiths cid records script s []).errors } := by
  simp only [process_hadiths]
  rw [processHadithsAux_errs_shift]

theorem processChapter_errs_shift (allH : List HadithRec) (ch : Chapter) (fs : FS)
    (s : RotState) (script : List CallResult) (errs : List Nat) :
    processChapter allH ch fs s script errs =
      { processChapter allH ch fs s script [] with
        errors := errs ++ (processChapter allH ch fs s script []).errors } := by
  rw [processChapter, processChapter]
  cases hlk : lookupFile fs.chapterFiles ch.id with
  | absent =>
      simp only [hlk]
      rw [process_hadiths_errs_shift ch.id allH script s errs]
      cases hres : (process_hadiths ch.id allH script s []).result with
      | some l => simp [hres]
      | none => simp [hres]
  | corrupt =>
      simp only [hlk]
      split
      · rename_i hm
        simp [hm]
      · rename_i hm
        rw [process_hadiths_errs_shift]
        cases hres : (process_hadiths ch.id _ script s []).result with
        | some l => simp [hres]
        | none => simp [hres]
  | stored ex =>
      simp only [hlk]
      split
      · rename_i hm
        simp [hm]
      · rename_i hm
        rw [process_hadiths_errs_shift]
        cases hres : (process_hadiths ch.id _ script s []).result with
        | some l => simp [hres]
        | none => simp [hres]

theorem hadithPhase_errs_shift (allH : List HadithRec) (chs : List Chapter) :
    ∀ (fs : FS) (s : RotState) (script : List CallResult) (errs : List Nat),
      hadithPhase allH chs fs s script errs =
        { hadithPhase allH chs fs s script [] with
          errors := errs ++ (hadithPhase allH chs fs s script []).errors } := by
  induction chs with
  | nil => intro fs s script errs; simp [hadithPhase]
  | cons ch rest ih =>
      intro fs s script errs
      rw [hadithPhase, hadithPhase]
      dsimp only
      rw [processChapter_errs_shift allH ch fs s script errs]
      dsimp only
      rw [ih _ _ _ (errs ++ (processChapter allH ch fs s script []).errors),
        ih _ _ _ ((processChapter allH ch fs s script []).errors)]
      simp

theorem processBookFrom_errs_shift (s0 : RotState) (book : Book) (fs : FS)
    (ns : List NameCallResult) (rs : List CallResult) (errs : List Nat) :
    processBookFrom s0 book fs ns rs errs =
      { processBookFrom s0 book fs ns rs [] with
        errors := errs ++ (processBookFrom s0 book fs ns rs []).errors } := by
  simp only [processBookFrom]
  rw [hadithPhase_errs_shift]

/-- C5 (amended): the rotation state is carried across chapters within one
book only.  Chapter-name translation returns just the model index, so the
exhaustion-counter updates made inside it are discarded — the counter after
the whole chapter-name phase equals the counter before it.  Across books
nothing is carried: each book's output (files, final rotation state, events)
is exactly what the standalone `process_book` of that book produces from the
re-initialized state, whatever was processed before it; only the error list is
threaded through the run. -/
theorem c5_rotation_state_locality :
    (∀ (doneIds : List Nat) (chs : List Chapter) (acc : List ChapterEntry) (s : RotState)
        (script : List NameCallResult),
      (namePhase doneIds chs acc s script).state.exhaustedCount = s.exhaustedCount) ∧
    (∀ (runs : List BookRun) (errs : List Nat),
      (processBooks runs errs).outputs = runs.map (fun r =>
        ((process_book r.book r.fs r.nameScript r.recScript []).fs,
          (process_book r.book r.fs r.nameScript r.recScript []).state,
          (process_book r.book r.fs r.nameScript r.recScript []).events))) := by
  constructor
  · exact fun doneIds chs acc s script => namePhase_count doneIds chs acc s script
  · intro runs
    induction runs with
    | nil => intro errs; rfl
    | cons r rest ih =>
        intro errs
        rw [processBooks]
        dsimp only
        simp only [List.map_cons]
        congr 1
        · rw [process_book, processBookFrom_errs_shift]
          rfl
        · exact ih _

/-- C5 is false as stated: in a two-book run where each book's only record
receives four quota-exhaustion failures, the code ends both books at model
index 1 (each book re-initializes the state to index 0, count 0), whereas
carrying the state across books as the spec describes would end the second
book at model index 2. -/
theorem c5_counterexample :
    (processBooks [sampleRun, sampleRun] []).outputs.map (fun t => t.2.1) =
      [⟨1, 0⟩, ⟨1, 0⟩] ∧
    (processBooksCarried [sampleRun, sampleRun] [] ⟨0, 0⟩).outputs.map (fun t => t.2.1) =
      [⟨1, 0⟩, ⟨2, 0⟩] ∧
    ([⟨1, 0⟩, ⟨1, 0⟩] : List RotState) ≠ [⟨1, 0⟩, ⟨2, 0⟩] := by decide

/-- C3 is false as stated: a record whose first call times out is retried —
the second call succeeds, the record is appended as translated (its Arabic
text reattached), the error list stays empty and the rotation state is
untouched, so the record is not surfaced as a failed item. -/
theorem c3_counterexample :
    processHadithsAux [⟨1, 1, 7, "e", "ar", "n"⟩]
        [.timeout, .success ⟨1, 7, "t", "p", "e", "", "m"⟩] ⟨0, 0⟩ [] =
      ⟨[⟨1, 7, "t", "p", "e", "ar", "m"⟩], ⟨0, 0⟩, [], [], [Event.translateHadith 1]⟩ := by
  decide

theorem sortById_sorted (l : List TranslatedHadith) : List.Sorted leById (sortById l) :=
  List.sorted_insertionSort leById l

/-- C8 (amended): every chapter file written by the resume-merge path carries
content sorted ascending by numeric id; the fresh-write path, by contrast,
writes the translated records in the order they were produced, without
sorting. -/
theorem c8_merge_write_sorted (names : FileState (List ChapterEntry)) (ch : Chapter)
    (allH : List HadithRec) (ex : List TranslatedHadith) (s : RotState)
    (script : List CallResult) (errs : List Nat) (cid : Nat) (c : List TranslatedHadith)
    (hmem : Event.writeChapterFile cid c ∈
      (processChapter allH ch ⟨names, [(ch.id, .stored ex)]⟩ s script errs).events) :
    List.Sorted leById c := by
  have hlk : lookupFile [(ch.id, FileState.stored ex)] ch.id = .stored ex := by
    simp [lookupFile]
  rw [processChapter] at hmem
  simp only [hlk, loadExistingHadiths] at hmem
  split at hmem
  · simp at hmem
  · split at hmem
    · rw [process_hadiths_events] at hmem
      simp only [List.mem_append, List.mem_singleton, List.mem_map] at hmem
      rcases hmem with ⟨h, _, heq⟩ | heq
      · simp at heq
      · simp only [Event.writeChapterFile.injEq] at heq
        rw [heq.2]
        exact sortById_sorted _
    · rw [process_hadiths_events] at hmem
      simp only [List.mem_map] at hmem
      rcases hmem with ⟨h, _, heq⟩
      simp at heq

theorem c8_merge_write_sorted_witness :
    List.Sorted leById [⟨1, 1, "t", "p", "e", "a1", "m"⟩, ⟨2, 2, "t", "p", "e", "ar", "m"⟩] :=
  c8_merge_write_sorted .absent ⟨1, "c", ""⟩ [⟨2, 1, 2, "e", "ar", "n"⟩]
    [⟨1, 1, "t", "p", "e", "a1", "m"⟩] ⟨0, 0⟩ [.success ⟨2, 2, "t", "p", "e", "", "m"⟩] [] 1
    [⟨1, 1, "t", "p", "e", "a1", "m"⟩, ⟨2, 2, "t", "p", "e", "ar", "m"⟩] (by decide)

/-- C8 is false as stated: in the fresh-write case (no prior resume file) the
file is written in production order without sorting — with the fetched
membership listing id 2 before id 1, the persisted content is [2, 1], not
sorted ascending by numeric id. -/
theorem c8_counterexample :
    (processChapter [⟨2, 1, 2, "e", "a2", "n"⟩, ⟨1, 1, 1, "e", "a1", "n"⟩] ⟨1, "c", ""⟩
        ⟨.absent, []⟩ ⟨0, 0⟩
        [.success ⟨2, 2, "t", "p", "e", "", "m"⟩, .success ⟨1, 1, "t", "p", "e", "", "m"⟩]
        []).fs.chapterFiles =
      [(1, .stored [⟨2, 2, "t", "p", "e", "a2", "m"⟩, ⟨1, 1, "t", "p", "e", "a1", "m"⟩])] ∧
    ¬ List.Sorted leById [⟨2, 2, "t", "p", "e", "a2", "m"⟩, ⟨1, 1, "t", "p", "e", "a1", "m"⟩] := by
  constructor
  · decide
  · intro hs
    have := List.rel_of_sorted_cons hs _ (List.mem_singleton.mpr rfl)
    simp [leById] at this

/-- C9 (amended): on interrupt the handler writes the accumulated failed-item
list to `error_hadiths.json` exactly when that list is non-empty, and then the
written content is exactly the accumulated list; with an empty list nothing is
written and the file keeps whatever content it had before. -/
theorem c9_flush_on_interrupt (errs : List Nat) (file : Option (List Nat)) :
    (errs ≠ [] → signalHandlerWrite errs file = some errs) ∧
    (errs = [] → signalHandlerWrite errs file = file) := by
  constructor
  · intro h
    simp [signalHandlerWrite, h]
  · intro h
    subst h
    rfl

theorem c9_flush_on_interrupt_witness :
    signalHandlerWrite [7] none = some [7] ∧ signalHandlerWrite [] (some [3]) = some [3] :=
  ⟨(c9_flush_on_interrupt [7] none).1 (by decide),
    (c9_flush_on_interrupt [] (some [3])).2 rfl⟩

/-- C9 is false as stated: at an interruption point where no failure has
accumulated yet, nothing is flushed — a stale `error_hadiths.json` left by an
earlier run keeps its old content [5], which does not reflect the (empty)
failed-item list accumulated up to the interruption. -/
theorem c9_counterexample :
    signalHandlerWrite [] (some [5]) = some [5] ∧
    some [5] ≠ some ([] : List Nat) ∧ some [5] ≠ (none : Option (List Nat)) := by
  decide

/-- C1: each quota-exhaustion failure increments the exhaustion counter; when
the counter reaches 4 the model index advances to the next model cyclically
(modulo the length of the fixed model list) and the counter resets to 0, so 4
consecutive quota-exhaustion failures rotate the active model exactly once and
leave the counter at 0 — in the record-level loop of `process_hadiths` and in
the chapter-name loop of `translate_chapter_name` alike. -/
theorem c1_quota_rotation (i : Nat) :
    quotaStep ⟨i, 0⟩ = ⟨i, 1⟩ ∧ quotaStep ⟨i, 1⟩ = ⟨i, 2⟩ ∧ quotaStep ⟨i, 2⟩ = ⟨i, 3⟩ ∧
    quotaStep ⟨i, 3⟩ = ⟨(i + 1) % models.length, 0⟩ ∧
    runRecordLoop [.quotaExhausted, .quotaExhausted, .quotaExhausted] 0 ⟨i, 0⟩ =
      ⟨none, ⟨i, 3⟩, 3, []⟩ ∧
    runRecordLoop [.quotaExhausted, .quotaExhausted, .quotaExhausted, .quotaExhausted] 0 ⟨i, 0⟩ =
      ⟨none, ⟨(i + 1) % models.length, 0⟩, 4, []⟩ ∧
    runChapterNameLoop [.quotaExhausted, .quotaExhausted, .quotaExhausted] 0 ⟨i, 0⟩ =
      ⟨none, i, 3, []⟩ ∧
    runChapterNameLoop [.quotaExhausted, .quotaExhausted, .quotaExhausted, .quotaExhausted]
        0 ⟨i, 0⟩ =
      ⟨none, (i + 1) % models.length, 4, []⟩ := by
  refine ⟨?_, ?_, ?_, ?_, ?_, ?_, ?_, ?_⟩ <;>
    simp [runRecordLoop, runChapterNameLoop, quotaStep, models]

/-- C2 (amended): the chapter-name loop issues at most 20 calls; the
record-level loop bounds only its attempt counter by 5, and that counter is
incremented solely by calls that return without raising, so at most 5 of the
calls issued for one record are non-raising ones (raising calls — timeouts,
quota exhaustions, other errors — are not bounded by the counter). -/
theorem c2_attempt_bounds :
    (∀ (script : List CallResult) (s : RotState),
        ((script.take (runRecordLoop script 0 s).calls).countP isCounted) ≤ 5) ∧
    (∀ (script : List NameCallResult) (s : RotState),
        (runChapterNameLoop script 0 s).calls ≤ 20) := by
  constructor
  · intro script s
    have := runRecordLoop_counted_le script 0 s (by omega)
    omega
  · intro script s
    have := runChapterNameLoop_calls_le script 0 s
    omega

/-- C2 is false as stated: a record whose first five calls raise non-quota
errors and whose sixth call succeeds receives 6 calls — more than the claimed
5-attempt ceiling — and is not declared failed. -/
theorem c2_counterexample :
    runRecordLoop
        [.otherError, .otherError, .otherError, .otherError, .otherError,
          .success ⟨1, 1, "t", "p", "e", "a", "m"⟩] 0 ⟨0, 0⟩ =
      ⟨some ⟨1, 1, "t", "p", "e", "a", "m"⟩, ⟨0, 0⟩, 6, []⟩ := by decide

/-- C3 (amended): a timeout during a record-level attempt causes an immediate
retry, not an abort: the loop continues with the rest of the script, with the
attempt counter, the model index and the exhaustion counter all unchanged
(only the call count grows).  In the chapter-name loop, by contrast, a timeout
returns immediately with no result. -/
theorem c3_timeout_behavior :
    (∀ (rest : List CallResult) (attempts : Nat) (s : RotState), attempts < 5 →
        runRecordLoop (.timeout :: rest) attempts s =
          ⟨(runRecordLoop rest attempts s).result, (runRecordLoop rest attempts s).state,
            (runRecordLoop rest attempts s).calls + 1, (runRecordLoop rest attempts s).rest⟩) ∧
    (∀ (rest : List NameCallResult) (attempts : Nat) (s : RotState), attempts < 20 →
        runChapterNameLoop (.timeout :: rest) attempts s = ⟨none, s.modelIndex, 1, rest⟩) := by
  constructor
  · intro rest attempts s h
    rw [runRecordLoop]
    simp [Nat.not_le.mpr h]
  · intro rest attempts s h
    rw [runChapterNameLoop]
    simp [Nat.not_le.mpr h]

theorem c3_timeout_behavior_witness :
    runRecordLoop [CallResult.timeout] 0 ⟨0, 0⟩ = ⟨none, ⟨0, 0⟩, 1, []⟩ ∧
    runChapterNameLoop [NameCallResult.timeout] 0 ⟨2, 3⟩ = ⟨none, 2, 1, []⟩ := by
  constructor
  · rw [c3_timeout_behavior.1 [] 0 ⟨0, 0⟩ (by omega)]
    decide
  · rw [c3_timeout_behavior.2 [] 0 ⟨2, 3⟩ (by omega)]

end HadithTranslate
